import Mathlib

/-!
Verification of the numeric core of the MNIST training notebooks.

The repository's executable logic builds a small fully-connected classifier,
computes a cross-entropy style loss through a log-softmax followed by a
negative-log-likelihood reduction, and runs a stochastic-gradient-descent
training loop.  This file embeds those pieces — the notebook's own `softmax`
function, the loss pipeline, the parameter update, the `resize_` reshaping of
an input batch, and the training-loop driver — and proves or refutes the
specified properties about them.  Exact-arithmetic claims are stated over `ℝ`
(for the exponential/logarithmic parts) or `ℚ` (for the purely linear parts).
-/

namespace Spec2Proof

open scoped BigOperators

/-- One row of the notebook's `softmax` function from Part 2:
`torch.exp(x)/torch.sum(torch.exp(x), dim=1).view(-1, 1)` applied to a single
example's vector of 10 class logits, in exact real arithmetic. -/
noncomputable def softmaxRow (x : Fin 10 → ℝ) : Fin 10 → ℝ :=
  fun i => Real.exp (x i) / ∑ j, Real.exp (x j)

/-- The notebook's `softmax` on a whole batch: the row computation applied to
every example (row) of the batch, `dim=1` normalization. -/
noncomputable def softmax (batch : List (Fin 10 → ℝ)) : List (Fin 10 → ℝ) :=
  batch.map softmaxRow

/-- The maximum logit of a row, used by the shifted log-sum-exp computation. -/
noncomputable def rowMax (x : Fin 10 → ℝ) : ℝ :=
  Finset.univ.sup' Finset.univ_nonempty x

/-- Modelled from the spec: `nn.LogSoftmax(dim=1)` is framework-internal code
not present in the repository; §4.2 of the spec describes its computation as
the log-sum-exp identity — subtract the maximum logit per row before
exponentiating, sum the exponentials, take the logarithm, and subtract from
each shifted logit. -/
noncomputable def logSoftmaxRow (x : Fin 10 → ℝ) : Fin 10 → ℝ :=
  fun i => (x i - rowMax x) - Real.log (∑ j, Real.exp (x j - rowMax x))

/-- Modelled from the spec: `nn.NLLLoss()` (default mean reduction) is
framework-internal code not present in the repository; the spec describes the
scalar loss as the negative mean, over the batch, of the log-probability
assigned to the correct class index. -/
noncomputable def nllLoss (logps : List (Fin 10 → ℝ)) (labels : List (Fin 10)) : ℝ :=
  -(((logps.zip labels).map (fun p => p.1 p.2)).sum / ((logps.zip labels).length : ℝ))

/-- The notebooks' loss pipeline: the model ends in `nn.LogSoftmax(dim=1)` and
its output is fed to `criterion = nn.NLLLoss()` together with the labels
(equivalently, `nn.CrossEntropyLoss` applied to the raw logits). -/
noncomputable def criterionLoss (logits : List (Fin 10 → ℝ)) (labels : List (Fin 10)) : ℝ :=
  nllLoss (logits.map logSoftmaxRow) labels

/-- The sum of exponentials of a row is positive. -/
lemma sumExp_pos (x : Fin 10 → ℝ) : 0 < ∑ j, Real.exp (x j) :=
  Finset.sum_pos (fun j _ => Real.exp_pos (x j)) Finset.univ_nonempty

/-- Every softmax output entry is positive. -/
lemma softmaxRow_pos (x : Fin 10 → ℝ) (i : Fin 10) : 0 < softmaxRow x i :=
  div_pos (Real.exp_pos (x i)) (sumExp_pos x)

/-- The shifted log-sum-exp computation coincides, in exact arithmetic, with
the logarithm of the notebook's unshifted softmax. -/
lemma logSoftmaxRow_eq_log_softmaxRow (x : Fin 10 → ℝ) (i : Fin 10) :
    logSoftmaxRow x i = Real.log (softmaxRow x i) := by
  have hS : (0 : ℝ) < ∑ j, Real.exp (x j) := sumExp_pos x
  have hshift : ∑ j, Real.exp (x j - rowMax x)
      = (∑ j, Real.exp (x j)) / Real.exp (rowMax x) := by
    rw [Finset.sum_div]
    refine Finset.sum_congr rfl (fun j _ => ?_)
    rw [Real.exp_sub]
  have hlog : Real.log (∑ j, Real.exp (x j - rowMax x))
      = Real.log (∑ j, Real.exp (x j)) - rowMax x := by
    rw [hshift, Real.log_div (ne_of_gt hS) (Real.exp_ne_zero _), Real.log_exp]
  unfold logSoftmaxRow softmaxRow
  rw [hlog, Real.log_div (Real.exp_ne_zero _) (ne_of_gt hS), Real.log_exp]
  ring

/-- C4: the loss function's per-example log-probability vector, computed by
the max-shifted log-sum-exp identity, equals (in exact arithmetic) the
logarithm of the unshifted softmax of the same row of logits. -/
theorem logSoftmax_shifted_eq_log_unshifted_softmax
    (x : Fin 10 → ℝ) (i : Fin 10) :
    logSoftmaxRow x i = Real.log (softmaxRow x i) :=
  logSoftmaxRow_eq_log_softmaxRow x i

/-- C6: every output row of the notebook's softmax sums to 1 along the class
dimension, for every example of a batch of any size, in exact arithmetic. -/
theorem softmax_rows_sum_to_one
    (batch : List (Fin 10 → ℝ)) (p : Fin 10 → ℝ) (hp : p ∈ softmax batch) :
    ∑ i, p i = 1 := by
  rcases List.mem_map.1 hp with ⟨x, _, rfl⟩
  unfold softmaxRow
  rw [← Finset.sum_div, div_self (ne_of_gt (sumExp_pos x))]

/-- Witness for C6 at a concrete batch: the single all-zero row of logits. -/
theorem softmax_rows_sum_to_one_witness :
    softmaxRow (fun _ => 0) ∈ softmax [fun _ => (0 : ℝ)] ∧
      ∑ i, softmaxRow (fun _ => 0) i = 1 :=
  ⟨by simp [softmax], softmax_rows_sum_to_one [fun _ => (0 : ℝ)] _ (by simp [softmax])⟩

/-- C10: the notebook's softmax is shift-invariant — adding one constant to
every logit of a row leaves the softmax of that row unchanged, so softmax
depends only on differences between logits. -/
theorem softmax_shift_invariant (x : Fin 10 → ℝ) (c : ℝ) (i : Fin 10) :
    softmaxRow (fun j => x j + c) i = softmaxRow x i := by
  unfold softmaxRow
  have hsum : ∑ j, Real.exp (x j + c) = (∑ j, Real.exp (x j)) * Real.exp c := by
    rw [Finset.sum_mul]
    exact Finset.sum_congr rfl (fun j _ => by rw [Real.exp_add])
  rw [hsum, Real.exp_add, mul_div_mul_right _ _ (Real.exp_ne_zero c)]

/-- C1: the scalar loss computed by the notebook's LogSoftmax-plus-NLLLoss
criterion equals the negative mean, over the examples of the batch, of the
logarithm of the softmax probability assigned to each example's true class. -/
theorem criterionLoss_eq_neg_mean_log_softmax
    (logits : List (Fin 10 → ℝ)) (labels : List (Fin 10))
    (h : logits.length = labels.length) :
    criterionLoss logits labels =
      -(((logits.zip labels).map (fun p => Real.log (softmaxRow p.1 p.2))).sum /
        (logits.length : ℝ)) := by
  unfold criterionLoss nllLoss
  rw [List.zip_map_left, List.map_map]
  have hmap : ((logits.zip labels).map ((fun p => p.1 p.2) ∘ Prod.map logSoftmaxRow id))
      = (logits.zip labels).map (fun p => Real.log (softmaxRow p.1 p.2)) := by
    refine List.map_congr_left (fun p _ => ?_)
    simp [Prod.map, logSoftmaxRow_eq_log_softmaxRow]
  rw [hmap]
  have hlen : ((logits.zip labels).map (Prod.map logSoftmaxRow id)).length
      = logits.length := by
    simp [List.length_zip, h]
  rw [hlen]

/-- Witness for C1 at a concrete one-example batch. -/
theorem criterionLoss_eq_neg_mean_log_softmax_witness :
    ([fun _ => (0 : ℝ)] : List (Fin 10 → ℝ)).length = ([0] : List (Fin 10)).length ∧
      criterionLoss [fun _ => (0 : ℝ)] [0] =
        -(((([fun _ => (0 : ℝ)] : List (Fin 10 → ℝ)).zip ([0] : List (Fin 10))).map
            (fun p => Real.log (softmaxRow p.1 p.2))).sum /
          ((([fun _ => (0 : ℝ)] : List (Fin 10 → ℝ)).length : ℝ))) :=
  ⟨rfl, criterionLoss_eq_neg_mean_log_softmax [fun _ => (0 : ℝ)] [0] rfl⟩

/-- The rectifying nonlinearity `F.relu` / `nn.ReLU`: negative inputs map to
zero, positive inputs pass unchanged. -/
def relu {α : Type} [LinearOrder α] [Zero α] (x : α) : α := max x 0

/-- An affine (fully-connected) layer `nn.Linear(m, n)` applied to one
example: weight matrix times input plus bias. -/
def linearLayer {α : Type} [CommRing α] {m n : ℕ}
    (w : Fin n → Fin m → α) (b : Fin n → α) (x : Fin m → α) : Fin n → α :=
  fun i => (∑ j, w i j * x j) + b i

/-- The class scores computed by the Part 2 exercise notebook's
`Network.forward` right before its final softmax:
`x = F.relu(self.fc1(x)); x = F.relu(self.fc2(x)); x = F.relu(self.fc3(x))`
— note the rectifier applied to the output of the final layer `fc3`. -/
def exerciseNetScores (w1 : Fin 128 → Fin 784 → ℚ) (b1 : Fin 128 → ℚ)
    (w2 : Fin 64 → Fin 128 → ℚ) (b2 : Fin 64 → ℚ)
    (w3 : Fin 10 → Fin 64 → ℚ) (b3 : Fin 10 → ℚ) (x : Fin 784 → ℚ) : Fin 10 → ℚ :=
  fun i =>
    relu (linearLayer w3 b3
      (fun k => relu (linearLayer w2 b2
        (fun l => relu (linearLayer w1 b1 x l)) k)) i)

/-- The same stack with the final layer left affine — no nonlinearity on the
final layer's output — as the claim prescribes and as the Part 3 training
models (`nn.Sequential(..., nn.Linear(64, 10))`) do. -/
def affineFinalScores (w1 : Fin 128 → Fin 784 → ℚ) (b1 : Fin 128 → ℚ)
    (w2 : Fin 64 → Fin 128 → ℚ) (b2 : Fin 64 → ℚ)
    (w3 : Fin 10 → Fin 64 → ℚ) (b3 : Fin 10 → ℚ) (x : Fin 784 → ℚ) : Fin 10 → ℚ :=
  linearLayer w3 b3
    (fun k => relu (linearLayer w2 b2
      (fun l => relu (linearLayer w1 b1 x l)) k))

/-- An affine layer with zero weight matrix outputs its bias. -/
lemma linearLayer_zero_weights {α : Type} [CommRing α] {m n : ℕ}
    (b : Fin n → α) (x : Fin m → α) (i : Fin n) :
    linearLayer (fun _ _ => 0) b x i = b i := by
  simp [linearLayer]

/-- C3: evaluation at a failing input.  With every weight zero, the final
bias −1 and a zero input image, the Part 2 exercise network's final-layer
output is clipped by the rectifier to 0 at every class, whereas the affine
final layer the claim prescribes outputs −1: the code does apply a
nonlinearity to the final layer's output. -/
theorem exercise_net_clips_negative_final_logits :
    exerciseNetScores (fun _ _ => 0) (fun _ => 0) (fun _ _ => 0) (fun _ => 0)
        (fun _ _ => 0) (fun _ => -1) (fun _ => 0) 0 = 0 ∧
      affineFinalScores (fun _ _ => 0) (fun _ => 0) (fun _ _ => 0) (fun _ => 0)
        (fun _ _ => 0) (fun _ => -1) (fun _ => 0) 0 = -1 ∧
      (0 : ℚ) ≠ -1 := by
  refine ⟨?_, ?_, by norm_num⟩
  · unfold exerciseNetScores
    rw [linearLayer_zero_weights]
    norm_num [relu]
  · unfold affineFinalScores
    rw [linearLayer_zero_weights]

/-- Modelled from the spec and the call site `images.resize_(64, 784)`:
`Tensor.resize_` is framework-internal; it reinterprets the tensor's flat
underlying buffer at the requested shape, truncating surplus elements and
materializing missing ones from unspecified memory (modelled here as zeros).
It performs no count check against the delivered batch and raises no
shape-mismatch error. -/
def resizeTensor (data : List ℚ) (rows cols : ℕ) : List (List ℚ) :=
  let buf := data.take (rows * cols) ++ List.replicate (rows * cols - data.length) 0
  (List.range rows).map (fun i => (buf.drop (i * cols)).take cols)

/-- C7: evaluation at a failing input.  A delivered final MNIST batch of 32
images (32 · 784 pixel values, with 32 labels) is silently coerced by
`images.resize_(64, 784)` into a full 64 × 784 tensor — the 32 missing rows
are fabricated from padding — instead of the pipeline failing immediately. -/
theorem resize_silently_pads_short_batch :
    resizeTensor (List.replicate (32 * 784) 0) 64 784
        = List.replicate 64 (List.replicate 784 (0 : ℚ)) ∧
      (32 : ℕ) ≠ 64 := by
  constructor
  · have hbuf : (List.replicate (32 * 784) (0 : ℚ)).take (64 * 784) ++
        List.replicate (64 * 784 - (List.replicate (32 * 784) (0 : ℚ)).length) 0
        = List.replicate (64 * 784) (0 : ℚ) := by
      rw [List.take_replicate, List.length_replicate, ← List.replicate_add]
      norm_num
    unfold resizeTensor
    rw [hbuf]
    rw [List.eq_replicate_iff]
    refine ⟨by rw [List.length_map, List.length_range], ?_⟩
    intro b hb
    rcases List.mem_map.1 hb with ⟨i, hi, rfl⟩
    have hi64 : i < 64 := List.mem_range.1 hi
    rw [List.drop_replicate, List.take_replicate]
    congr 1
    omega
  · norm_num

/-- A parameter or gradient tensor as a list of rows of rationals (a bias
vector being the one-row case); `model.parameters()` is a list of such
tensors. -/
abbrev Tensor := List (List ℚ)

/-- The shape of a tensor: the list of its row lengths. -/
def shapeT (t : Tensor) : List ℕ := t.map List.length

/-- The shapes of a whole parameter list. -/
def shapeP (ps : List Tensor) : List (List ℕ) := ps.map shapeT

/-- The entry of a tensor at row `i`, column `j` (0 outside the tensor). -/
def entry (t : Tensor) (i j : ℕ) : ℚ := (t.getD i []).getD j 0

/-- Modelled from the spec: `optimizer.step()` of
`optim.SGD(model.parameters(), lr=...)` is framework-internal; §4.4 of the
spec describes it as `new_value = old_value − learning_rate × gradient`,
applied independently and element-wise to every weight and bias tensor, with
no momentum and no adaptive scaling.  One tensor: -/
def sgdUpdateTensor (lr : ℚ) (p g : Tensor) : Tensor :=
  List.zipWith (fun pr gr => List.zipWith (fun a c => a - lr * c) pr gr) p g

/-- The optimizer step over the whole parameter list. -/
def sgdStep (lr : ℚ) (ps gs : List Tensor) : List Tensor :=
  List.zipWith (sgdUpdateTensor lr) ps gs

/-- Indexing a zipWith of two lists reads the two lists at the same index. -/
lemma getD_zipWith {α β γ : Type} (f : α → β → γ) (d : α) (d' : β) (e : γ)
    (l : List α) (l' : List β) (i : ℕ) (hi : i < l.length) (hi' : i < l'.length) :
    (List.zipWith f l l').getD i e = f (l.getD i d) (l'.getD i d') := by
  induction l generalizing l' i with
  | nil => simp at hi
  | cons a l ih =>
    cases l' with
    | nil => simp at hi'
    | cons b l' =>
      cases i with
      | zero => rfl
      | succ i =>
        rw [List.zipWith_cons_cons, List.getD_cons_succ, List.getD_cons_succ,
          List.getD_cons_succ]
        exact ih l' i (by simpa using hi) (by simpa using hi')

/-- Tensors of equal shape have equally many rows. -/
lemma shapeT_length_eq {p g : Tensor} (h : shapeT p = shapeT g) :
    p.length = g.length := by
  have hl := congrArg List.length h
  simpa [shapeT] using hl

/-- Tensors of equal shape have rows of equal length everywhere. -/
lemma shapeT_row_length_eq {p g : Tensor} (h : shapeT p = shapeT g) (i : ℕ) :
    (p.getD i []).length = (g.getD i []).length := by
  induction p generalizing g i with
  | nil =>
    cases g with
    | nil => rfl
    | cons b g => simp [shapeT] at h
  | cons a p ih =>
    cases g with
    | nil => simp [shapeT] at h
    | cons b g =>
      simp only [shapeT, List.map_cons, List.cons.injEq] at h
      cases i with
      | zero => simpa using h.1
      | succ i =>
        rw [List.getD_cons_succ, List.getD_cons_succ]
        exact ih h.2 i

/-- Parameter lists of equal shape have equally many tensors. -/
lemma shapeP_length_eq {ps gs : List Tensor} (h : shapeP ps = shapeP gs) :
    ps.length = gs.length := by
  have hl := congrArg List.length h
  simpa [shapeP] using hl

/-- Parameter lists of equal shape have equal tensor shapes everywhere. -/
lemma shapeP_tensor_shape_eq {ps gs : List Tensor} (h : shapeP ps = shapeP gs)
    (t : ℕ) : shapeT (ps.getD t []) = shapeT (gs.getD t []) := by
  induction ps generalizing gs t with
  | nil =>
    cases gs with
    | nil => rfl
    | cons b gs => simp [shapeP] at h
  | cons a ps ih =>
    cases gs with
    | nil => simp [shapeP] at h
    | cons b gs =>
      simp only [shapeP, List.map_cons, List.cons.injEq] at h
      cases t with
      | zero => simpa using h.1
      | succ t =>
        rw [List.getD_cons_succ, List.getD_cons_succ]
        exact ih h.2 t

/-- The optimizer step preserves the shape of a tensor. -/
lemma shapeT_sgdUpdateTensor (lr : ℚ) {p g : Tensor} (h : shapeT p = shapeT g) :
    shapeT (sgdUpdateTensor lr p g) = shapeT p := by
  induction p generalizing g with
  | nil => cases g <;> rfl
  | cons a p ih =>
    cases g with
    | nil => simp [shapeT] at h
    | cons b g =>
      simp only [shapeT, List.map_cons, List.cons.injEq] at h
      simp only [sgdUpdateTensor, List.zipWith_cons_cons, shapeT, List.map_cons,
        List.cons.injEq]
      refine ⟨by rw [List.length_zipWith, h.1, min_self], ?_⟩
      simpa [sgdUpdateTensor, shapeT] using ih h.2

/-- The optimizer step preserves all tensor shapes. -/
lemma shapeP_sgdStep (lr : ℚ) {ps gs : List Tensor} (h : shapeP ps = shapeP gs) :
    shapeP (sgdStep lr ps gs) = shapeP ps := by
  induction ps generalizing gs with
  | nil => cases gs <;> rfl
  | cons a ps ih =>
    cases gs with
    | nil => simp [shapeP] at h
    | cons b gs =>
      simp only [shapeP, List.map_cons, List.cons.injEq] at h
      simp only [sgdStep, List.zipWith_cons_cons, shapeP, List.map_cons,
        List.cons.injEq]
      refine ⟨shapeT_sgdUpdateTensor lr h.1, ?_⟩
      simpa [sgdStep, shapeP] using ih h.2

/-- Entry-level form of the optimizer step on one tensor. -/
lemma entry_sgdUpdateTensor (lr : ℚ) {p g : Tensor} (h : shapeT p = shapeT g)
    (i j : ℕ) (hi : i < p.length) (hj : j < (p.getD i []).length) :
    entry (sgdUpdateTensor lr p g) i j = entry p i j - lr * entry g i j := by
  unfold entry sgdUpdateTensor
  rw [getD_zipWith _ [] [] [] p g i hi (by rw [← shapeT_length_eq h]; exact hi)]
  rw [getD_zipWith _ 0 0 0 _ _ j hj (by rw [← shapeT_row_length_eq h i]; exact hj)]

/-- C2: one application of the optimizer's update rule preserves the shape of
every parameter tensor (changing nothing else) and rewrites every entry at
every valid position to `old_value − learning_rate × gradient`,
independently and element-wise. -/
theorem sgd_step_elementwise (lr : ℚ) (ps gs : List Tensor) (t i j : ℕ)
    (_hlr : 0 < lr) (hsh : shapeP ps = shapeP gs)
    (ht : t < ps.length) (hi : i < (ps.getD t []).length)
    (hj : j < ((ps.getD t []).getD i []).length) :
    shapeP (sgdStep lr ps gs) = shapeP ps ∧
      entry ((sgdStep lr ps gs).getD t []) i j
        = entry (ps.getD t []) i j - lr * entry (gs.getD t []) i j := by
  refine ⟨shapeP_sgdStep lr hsh, ?_⟩
  unfold sgdStep
  rw [getD_zipWith (sgdUpdateTensor lr) [] [] [] ps gs t ht
    (by rw [← shapeP_length_eq hsh]; exact ht)]
  exact entry_sgdUpdateTensor lr (shapeP_tensor_shape_eq hsh t) i j hi hj

/-- Witness for C2 at a concrete parameter list of one 1 × 2 tensor. -/
theorem sgd_step_elementwise_witness :
    (0 : ℚ) < 1/2 ∧ shapeP [[[(1 : ℚ), 2]]] = shapeP [[[(4 : ℚ), 6]]] ∧
      (0 : ℕ) < [[[(1 : ℚ), 2]]].length ∧
      (shapeP (sgdStep (1/2) [[[(1 : ℚ), 2]]] [[[(4 : ℚ), 6]]])
          = shapeP [[[(1 : ℚ), 2]]] ∧
        entry ((sgdStep (1/2) [[[(1 : ℚ), 2]]] [[[(4 : ℚ), 6]]]).getD 0 []) 0 1
          = entry ([[[(1 : ℚ), 2]]].getD 0 []) 0 1
            - 1/2 * entry ([[[(4 : ℚ), 6]]].getD 0 []) 0 1) :=
  ⟨by norm_num, rfl, by decide,
    sgd_step_elementwise (1/2) [[[(1 : ℚ), 2]]] [[[(4 : ℚ), 6]]] 0 0 1
      (by norm_num) rfl (by decide) (by decide) (by decide)⟩

/-- State carried across training-loop iterations: the current parameter
tensors and the autograd gradient buffers attached to them. -/
structure TrainState where
  params : List Tensor
  grads : List Tensor

/-- All-zero tensors of the same shapes as the given ones: the state
`optimizer.zero_grad()` puts every gradient buffer into. -/
def zerosLike (ps : List Tensor) : List Tensor :=
  ps.map (fun t => t.map (fun r => r.map (fun _ => 0)))

/-- Gradient accumulation performed by `loss.backward()`: autograd adds the
freshly computed gradients onto whatever the buffers already hold (the
notebook: "When you do multiple backwards passes with the same parameters,
the gradients are accumulated"). -/
def accumulate (gs fresh : List Tensor) : List Tensor :=
  List.zipWith (fun t u => List.zipWith (fun r s => List.zipWith (· + ·) r s) t u)
    gs fresh

/-- Every entry of every tensor in the list is zero. -/
def allZeroP (gs : List Tensor) : Prop := ∀ t ∈ gs, ∀ r ∈ t, ∀ x ∈ r, x = 0

/-- The record kept for one processed batch: the batch itself, the parameters
at the start of the iteration, the gradient buffers at the moment
`loss.backward()` is entered, the gradient buffers consumed by
`optimizer.step()`, and the scalar loss added to `running_loss`. -/
structure StepTrace (β : Type) where
  batch : β
  paramsBefore : List Tensor
  gradAtBackward : List Tensor
  gradAtStep : List Tensor
  lossValue : ℚ

/-- One iteration of the inner training loop of the Part 3 notebooks:
`optimizer.zero_grad(); loss = criterion(model(images), labels);
loss.backward(); optimizer.step(); running_loss += loss.item()`.
`gradFn` abstracts the gradients autograd computes for one batch at given
parameters, and `lossFn` the scalar loss value. -/
def trainBatch {β : Type} (lr : ℚ) (gradFn : List Tensor → β → List Tensor)
    (lossFn : List Tensor → β → ℚ) (st : TrainState) (b : β) :
    TrainState × StepTrace β :=
  let g0 := zerosLike st.params
  let g1 := accumulate g0 (gradFn st.params b)
  (⟨sgdStep lr st.params g1, g1⟩, ⟨b, st.params, g0, g1, lossFn st.params b⟩)

/-- The inner `for images, labels in trainloader:` loop, processing batches
in order while keeping the per-batch records and the running loss. -/
def runBatches {β : Type} (lr : ℚ) (gradFn : List Tensor → β → List Tensor)
    (lossFn : List Tensor → β → ℚ) (st : TrainState) :
    List β → TrainState × List (StepTrace β) × ℚ
  | [] => (st, [], 0)
  | b :: bs =>
    let s := trainBatch lr gradFn lossFn st b
    let r := runBatches lr gradFn lossFn s.1 bs
    (r.1, s.2 :: r.2.1, s.2.lossValue + r.2.2)

/-- One epoch: run all batches, then report
`running_loss / len(trainloader)` exactly as the loop's print statement
does. -/
def runEpoch {β : Type} (lr : ℚ) (gradFn : List Tensor → β → List Tensor)
    (lossFn : List Tensor → β → ℚ) (st : TrainState) (batches : List β) :
    TrainState × List (StepTrace β) × ℚ :=
  let r := runBatches lr gradFn lossFn st batches
  (r.1, r.2.1, r.2.2 / (batches.length : ℚ))

/-- The outer `for e in range(epochs):` loop: the full training driver,
collecting every epoch's per-batch records and reported value. -/
def runTraining {β : Type} (lr : ℚ) (gradFn : List Tensor → β → List Tensor)
    (lossFn : List Tensor → β → ℚ) (st : TrainState) (batches : List β) :
    ℕ → TrainState × List (List (StepTrace β) × ℚ)
  | 0 => (st, [])
  | e + 1 =>
    let r := runEpoch lr gradFn lossFn st batches
    let rest := runTraining lr gradFn lossFn r.1 batches e
    (rest.1, (r.2.1, r.2.2) :: rest.2)

/-- Every record traced by the inner loop is the record of one
`trainBatch` iteration at some intermediate state. -/
lemma mem_runBatches_trace {β : Type} {lr : ℚ}
    {gradFn : List Tensor → β → List Tensor} {lossFn : List Tensor → β → ℚ}
    {batches : List β} {st : TrainState} {tr : StepTrace β}
    (h : tr ∈ (runBatches lr gradFn lossFn st batches).2.1) :
    ∃ st' b, tr = (trainBatch lr gradFn lossFn st' b).2 := by
  induction batches generalizing st with
  | nil => simp [runBatches] at h
  | cons b bs ih =>
    rw [runBatches] at h
    rcases List.mem_cons.1 h with h | h
    · exact ⟨st, b, h⟩
    · exact ih h

/-- Every epoch record of the driver is the record of one full epoch run at
some intermediate state. -/
lemma mem_runTraining_epoch {β : Type} {lr : ℚ}
    {gradFn : List Tensor → β → List Tensor} {lossFn : List Tensor → β → ℚ}
    {batches : List β} {epochs : ℕ} {st : TrainState}
    {ep : List (StepTrace β) × ℚ}
    (h : ep ∈ (runTraining lr gradFn lossFn st batches epochs).2) :
    ∃ st', ep = ((runEpoch lr gradFn lossFn st' batches).2.1,
      (runEpoch lr gradFn lossFn st' batches).2.2) := by
  induction epochs generalizing st with
  | zero => simp [runTraining] at h
  | succ e ih =>
    rw [runTraining] at h
    rcases List.mem_cons.1 h with h | h
    · exact ⟨st, h⟩
    · exact ih h

/-- Adding a row onto a zeroed row of the same length gives it back. -/
lemma zipWith_add_map_zero (r : List ℚ) :
    ∀ (s : List ℚ), r.length = s.length →
      List.zipWith (· + ·) (r.map (fun _ => 0)) s = s := by
  induction r with
  | nil =>
    intro s h
    cases s with
    | nil => rfl
    | cons c s => simp at h
  | cons a r ih =>
    intro s h
    cases s with
    | nil => simp at h
    | cons c s =>
      rw [List.map_cons, List.zipWith_cons_cons, zero_add,
        ih s (by simpa using h)]

/-- Accumulating a tensor onto a zeroed tensor of the same shape gives it
back. -/
lemma accumulate_tensor_zero (t : Tensor) :
    ∀ (u : Tensor), shapeT t = shapeT u →
      List.zipWith (fun r s => List.zipWith (· + ·) r s)
        (t.map (fun r => r.map (fun _ => 0))) u = u := by
  induction t with
  | nil =>
    intro u h
    cases u with
    | nil => rfl
    | cons c u => simp [shapeT] at h
  | cons a t ih =>
    intro u h
    cases u with
    | nil => simp [shapeT] at h
    | cons c u =>
      simp only [shapeT, List.map_cons, List.cons.injEq] at h
      rw [List.map_cons, List.zipWith_cons_cons, zipWith_add_map_zero a c h.1,
        ih u h.2]

/-- Accumulating fresh gradients onto zeroed buffers of the parameters'
shapes yields exactly the fresh gradients. -/
lemma accumulate_zerosLike {ps fresh : List Tensor}
    (h : shapeP ps = shapeP fresh) :
    accumulate (zerosLike ps) fresh = fresh := by
  induction ps generalizing fresh with
  | nil =>
    cases fresh with
    | nil => rfl
    | cons c fresh => simp [shapeP] at h
  | cons a ps ih =>
    cases fresh with
    | nil => simp [shapeP] at h
    | cons c fresh =>
      simp only [shapeP, List.map_cons, List.cons.injEq] at h
      show List.zipWith _ (List.map _ (a :: ps)) (c :: fresh) = c :: fresh
      rw [List.map_cons, List.zipWith_cons_cons, accumulate_tensor_zero a c h.1]
      exact congrArg (c :: ·) (ih h.2)

/-- The zeroed buffers are all-zero. -/
lemma allZeroP_zerosLike (ps : List Tensor) : allZeroP (zerosLike ps) := by
  intro t ht r hr x hx
  rcases List.mem_map.1 ht with ⟨t0, _, rfl⟩
  rcases List.mem_map.1 hr with ⟨r0, _, rfl⟩
  rcases List.mem_map.1 hx with ⟨x0, _, rfl⟩
  rfl

/-- C5: in every epoch and for every batch processed by the training driver,
the gradient buffer of every parameter is all-zero at the moment the
backward pass starts; consequently the gradients consumed by the update step
are exactly the fresh gradients of the current batch at the current
parameters — no gradient of an earlier batch is accumulated into them. -/
theorem grads_zeroed_before_every_backward {β : Type} (lr : ℚ)
    (gradFn : List Tensor → β → List Tensor) (lossFn : List Tensor → β → ℚ)
    (st0 : TrainState) (batches : List β) (epochs : ℕ)
    (ep : List (StepTrace β) × ℚ) (tr : StepTrace β)
    (hep : ep ∈ (runTraining lr gradFn lossFn st0 batches epochs).2)
    (htr : tr ∈ ep.1)
    (hsh : shapeP tr.paramsBefore = shapeP (gradFn tr.paramsBefore tr.batch)) :
    allZeroP tr.gradAtBackward ∧
      tr.gradAtStep = gradFn tr.paramsBefore tr.batch := by
  obtain ⟨st1, rfl⟩ := mem_runTraining_epoch hep
  obtain ⟨st2, b, rfl⟩ := mem_runBatches_trace htr
  exact ⟨allZeroP_zerosLike st2.params, accumulate_zerosLike hsh⟩

/-- A trivially shape-preserving gradient oracle for concrete runs. -/
def demoGradFn : List Tensor → ℕ → List Tensor := fun p _ => p

/-- A constant loss oracle for concrete runs. -/
def demoLossFn : List Tensor → ℕ → ℚ := fun _ _ => 0

/-- A concrete initial state with no parameters. -/
def demoState : TrainState := ⟨[], []⟩

/-- The concrete one-epoch demo run traces exactly one epoch record. -/
lemma demo_runTraining_eq :
    (runTraining 1 demoGradFn demoLossFn demoState [0] 1).2
      = [((runEpoch 1 demoGradFn demoLossFn demoState [0]).2.1,
          (runEpoch 1 demoGradFn demoLossFn demoState [0]).2.2)] := rfl

/-- The concrete demo epoch traces exactly one batch record. -/
lemma demo_runEpoch_trace_eq :
    (runEpoch 1 demoGradFn demoLossFn demoState [0]).2.1
      = [(trainBatch 1 demoGradFn demoLossFn demoState 0).2] := rfl

/-- Witness for C5 at a concrete one-epoch, one-batch run. -/
theorem grads_zeroed_before_every_backward_witness :
    ((runEpoch 1 demoGradFn demoLossFn demoState [0]).2.1,
        (runEpoch 1 demoGradFn demoLossFn demoState [0]).2.2)
      ∈ (runTraining 1 demoGradFn demoLossFn demoState [0] 1).2 ∧
    (trainBatch 1 demoGradFn demoLossFn demoState 0).2
      ∈ (runEpoch 1 demoGradFn demoLossFn demoState [0]).2.1 ∧
    shapeP (trainBatch 1 demoGradFn demoLossFn demoState 0).2.paramsBefore
      = shapeP (demoGradFn
          (trainBatch 1 demoGradFn demoLossFn demoState 0).2.paramsBefore
          (trainBatch 1 demoGradFn demoLossFn demoState 0).2.batch) ∧
    (allZeroP (trainBatch 1 demoGradFn demoLossFn demoState 0).2.gradAtBackward ∧
      (trainBatch 1 demoGradFn demoLossFn demoState 0).2.gradAtStep
        = demoGradFn
            (trainBatch 1 demoGradFn demoLossFn demoState 0).2.paramsBefore
            (trainBatch 1 demoGradFn demoLossFn demoState 0).2.batch) :=
  have h1 : ((runEpoch 1 demoGradFn demoLossFn demoState [0]).2.1,
      (runEpoch 1 demoGradFn demoLossFn demoState [0]).2.2)
      ∈ (runTraining 1 demoGradFn demoLossFn demoState [0] 1).2 := by
    rw [demo_runTraining_eq]; exact List.mem_singleton.mpr rfl
  have h2 : (trainBatch 1 demoGradFn demoLossFn demoState 0).2
      ∈ (runEpoch 1 demoGradFn demoLossFn demoState [0]).2.1 := by
    rw [demo_runEpoch_trace_eq]; exact List.mem_singleton.mpr rfl
  ⟨h1, h2, rfl,
    grads_zeroed_before_every_backward 1 demoGradFn demoLossFn demoState [0] 1
      ((runEpoch 1 demoGradFn demoLossFn demoState [0]).2.1,
        (runEpoch 1 demoGradFn demoLossFn demoState [0]).2.2)
      (trainBatch 1 demoGradFn demoLossFn demoState 0).2 h1 h2 rfl⟩

/-- The running loss of the inner loop is the sum of the traced per-batch
losses, and one record is traced per batch. -/
lemma runBatches_loss_sum {β : Type} (lr : ℚ)
    (gradFn : List Tensor → β → List Tensor) (lossFn : List Tensor → β → ℚ)
    (batches : List β) :
    ∀ (st : TrainState),
      (runBatches lr gradFn lossFn st batches).2.2
        = ((runBatches lr gradFn lossFn st batches).2.1.map StepTrace.lossValue).sum
      ∧ (runBatches lr gradFn lossFn st batches).2.1.length = batches.length := by
  induction batches with
  | nil => intro st; simp [runBatches]
  | cons b bs ih =>
    intro st
    rw [runBatches]
    constructor
    · simp only [List.map_cons, List.sum_cons]
      exact congrArg (_ + ·) (ih _).1
    · simpa using (ih _).2

/-- C9 (amended): every value the training driver reports for an epoch is
the sum of the epoch's per-batch scalar losses divided by the number of
batches — the mean of the per-batch losses — and one loss is traced per
batch. -/
theorem epoch_report_is_mean_of_batch_losses {β : Type} (lr : ℚ)
    (gradFn : List Tensor → β → List Tensor) (lossFn : List Tensor → β → ℚ)
    (st0 : TrainState) (batches : List β) (epochs : ℕ)
    (ep : List (StepTrace β) × ℚ)
    (hep : ep ∈ (runTraining lr gradFn lossFn st0 batches epochs).2) :
    ep.2 = ((ep.1.map StepTrace.lossValue).sum) / (batches.length : ℚ) ∧
      ep.1.length = batches.length := by
  obtain ⟨st1, rfl⟩ := mem_runTraining_epoch hep
  refine ⟨?_, (runBatches_loss_sum lr gradFn lossFn batches st1).2⟩
  show (runEpoch lr gradFn lossFn st1 batches).2.2 = _
  unfold runEpoch
  exact congrArg (· / ((batches.length : ℚ)))
    (runBatches_loss_sum lr gradFn lossFn batches st1).1

/-- The concrete two-batch demo run traces exactly one epoch record. -/
lemma demo_runTraining_two_eq :
    (runTraining 1 demoGradFn demoLossFn demoState [0, 1] 1).2
      = [((runEpoch 1 demoGradFn demoLossFn demoState [0, 1]).2.1,
          (runEpoch 1 demoGradFn demoLossFn demoState [0, 1]).2.2)] := rfl

/-- Witness for C9 at a concrete one-epoch, two-batch run. -/
theorem epoch_report_is_mean_of_batch_losses_witness :
    ((runEpoch 1 demoGradFn demoLossFn demoState [0, 1]).2.1,
        (runEpoch 1 demoGradFn demoLossFn demoState [0, 1]).2.2)
      ∈ (runTraining 1 demoGradFn demoLossFn demoState [0, 1] 1).2 ∧
    ((runEpoch 1 demoGradFn demoLossFn demoState [0, 1]).2.2
        = (((runEpoch 1 demoGradFn demoLossFn demoState [0, 1]).2.1.map
            StepTrace.lossValue).sum) / (([0, 1] : List ℕ).length : ℚ) ∧
      (runEpoch 1 demoGradFn demoLossFn demoState [0, 1]).2.1.length
        = ([0, 1] : List ℕ).length) :=
  have h1 : ((runEpoch 1 demoGradFn demoLossFn demoState [0, 1]).2.1,
      (runEpoch 1 demoGradFn demoLossFn demoState [0, 1]).2.2)
      ∈ (runTraining 1 demoGradFn demoLossFn demoState [0, 1] 1).2 := by
    rw [demo_runTraining_two_eq]; exact List.mem_singleton.mpr rfl
  ⟨h1,
    epoch_report_is_mean_of_batch_losses 1 demoGradFn demoLossFn demoState
      [0, 1] 1
      ((runEpoch 1 demoGradFn demoLossFn demoState [0, 1]).2.1,
        (runEpoch 1 demoGradFn demoLossFn demoState [0, 1]).2.2) h1⟩

/-- The per-batch mean loss `loss.item()` returns under the criterion's mean
reduction, given the batch's individual example losses. -/
def batchMeanLoss (exampleLosses : List ℚ) : ℚ :=
  exampleLosses.sum / (exampleLosses.length : ℚ)

/-- Stated from the claim's words for comparison with the driver's report:
the mean loss per example of an epoch, the total of all examples' losses
divided by the total number of examples. -/
def perExampleMeanLoss (epochExampleLosses : List (List ℚ)) : ℚ :=
  (epochExampleLosses.flatten).sum / ((epochExampleLosses.flatten).length : ℚ)

/-- C9 counterexample: with two batches of unequal sizes (1 example with
loss 0, then 2 examples with loss 3 each) the driver reports 3/2 — the mean
of the per-batch mean losses — while the mean loss per example of the epoch
is 2, so the reported value is not the mean loss per example. -/
theorem epoch_report_differs_from_per_example_mean :
    (runEpoch 1 (fun p _ => p) (fun _ b => batchMeanLoss b) ⟨[], []⟩
        [[0], [3, 3]]).2.2 = 3/2 ∧
      perExampleMeanLoss [[0], [3, 3]] = 2 ∧ ((3 : ℚ)/2) ≠ 2 := by
  refine ⟨?_, ?_, by norm_num⟩
  · norm_num [runEpoch, runBatches, trainBatch, batchMeanLoss]
  · norm_num [perExampleMeanLoss, List.flatten]

/-- The spec's concrete scenario network: 784 → 128 → 10 with rectifying
hidden nonlinearity and no output nonlinearity, over the reals. -/
noncomputable def twoLayerLogits (w1 : Fin 128 → Fin 784 → ℝ) (b1 : Fin 128 → ℝ)
    (w2 : Fin 10 → Fin 128 → ℝ) (b2 : Fin 10 → ℝ) (x : Fin 784 → ℝ) : Fin 10 → ℝ :=
  linearLayer w2 b2 (fun j => relu (linearLayer w1 b1 x j))

/-- The spec's scenario loss: the batch of 64 all-zero flattened 28 × 28
images through the fresh two-layer network, then the cross-entropy criterion
(log-softmax followed by the negative-log-likelihood mean). -/
noncomputable def scenarioLoss (w1 : Fin 128 → Fin 784 → ℝ) (b1 : Fin 128 → ℝ)
    (w2 : Fin 10 → Fin 128 → ℝ) (b2 : Fin 10 → ℝ) (labels : List (Fin 10)) : ℝ :=
  criterionLoss (List.replicate 64 (twoLayerLogits w1 b1 w2 b2 (fun _ => 0))) labels

/-- The criterion on 64 copies of one logit row whose selected
log-probability is the same value at every occurring label. -/
lemma criterionLoss_replicate (z : Fin 10 → ℝ) (labels : List (Fin 10))
    (hlen : labels.length = 64) (c : ℝ)
    (hc : ∀ l ∈ labels, logSoftmaxRow z l = c) :
    criterionLoss (List.replicate 64 z) labels = -c := by
  unfold criterionLoss nllLoss
  rw [List.map_replicate]
  have hmap : ((List.replicate 64 (logSoftmaxRow z)).zip labels).map
        (fun p => p.1 p.2)
      = ((List.replicate 64 (logSoftmaxRow z)).zip labels).map (fun _ => c) := by
    refine List.map_congr_left (fun p hp => ?_)
    have h1 : p.1 = logSoftmaxRow z :=
      List.eq_of_mem_replicate (List.of_mem_zip hp).1
    have h2 : p.2 ∈ labels := (List.of_mem_zip hp).2
    rw [h1]
    exact hc p.2 h2
  rw [hmap, List.map_const', List.sum_replicate, List.length_zip,
    List.length_replicate, hlen, min_self, nsmul_eq_mul]
  push_cast
  ring_nf

/-- The sum of exponentials over a row holding `a` at class 0 and `−a`
elsewhere. -/
lemma sum_exp_spike (a : ℝ) :
    ∑ j : Fin 10, Real.exp (if j = 0 then a else -a)
      = Real.exp a + 9 * Real.exp (-a) := by
  have h1 : ∀ j : Fin 10, Real.exp (if j = 0 then a else -a)
      = (if j = 0 then Real.exp a - Real.exp (-a) else 0) + Real.exp (-a) := by
    intro j
    by_cases hj : j = 0 <;> simp [hj]
  rw [Finset.sum_congr rfl (fun j _ => h1 j), Finset.sum_add_distrib,
    Finset.sum_ite_eq' Finset.univ (0 : Fin 10)
      (fun _ => Real.exp a - Real.exp (-a)), Finset.sum_const]
  simp only [Finset.mem_univ, if_true, Finset.card_univ, Fintype.card_fin,
    nsmul_eq_mul]
  ring

/-- The bias row used by the C8 counterexample: 2/25 on class 0, −2/25 on
every other class — all entries inside the framework's default uniform
initialization range for a layer with 128 inputs (bound 1/√128 ≈ 0.088). -/
noncomputable def spikeBias : Fin 10 → ℝ := fun i => if i = 0 then 2/25 else -(2/25)

/-- The shifted-spike sum of exponentials stays below 10. -/
lemma sum_exp_spike_le_ten :
    Real.exp (2/25) + 9 * Real.exp (-(2/25)) ≤ 10 := by
  have hup : Real.exp (2/25) ≤ 25/23 := by
    have h := Real.add_one_le_exp (-(2/25))
    have h' : (23/25 : ℝ) ≤ Real.exp (-(2/25)) := by linarith
    have hinv := inv_anti₀ (by norm_num : (0:ℝ) < 23/25) h'
    rw [Real.exp_neg, inv_inv] at hinv
    calc Real.exp (2/25) ≤ ((23 : ℝ)/25)⁻¹ := hinv
    _ = 25/23 := by norm_num
  have hdown : Real.exp (-(2/25)) ≤ 25/27 := by
    have h := Real.add_one_le_exp (2/25)
    have h' : (27/25 : ℝ) ≤ Real.exp (2/25) := by linarith
    have hinv := inv_anti₀ (by norm_num : (0:ℝ) < 27/25) h'
    rw [← Real.exp_neg] at hinv
    calc Real.exp (-(2/25)) ≤ ((27 : ℝ)/25)⁻¹ := hinv
    _ = 25/27 := by norm_num
  nlinarith [hup, hdown]

/-- C8 counterexample: a fresh initialization — all weights zero, final-layer
biases `spikeBias`, each entry inside the framework's default init range —
for which the scenario loss on 64 zero images with labels 0 lies at least
2/25 below ln 10, violating the claimed 1e-3 tolerance. -/
theorem fresh_two_layer_loss_not_within_tolerance :
    ¬ (|scenarioLoss (fun _ _ => 0) (fun _ => 0) (fun _ _ => 0) spikeBias
          (List.replicate 64 0) - Real.log 10| ≤ 1/1000) := by
  have hz : twoLayerLogits (fun _ _ => 0) (fun _ => 0) (fun _ _ => 0) spikeBias
      (fun _ => 0) = spikeBias := by
    funext i
    exact linearLayer_zero_weights spikeBias _ i
  have hS : ∑ j, Real.exp (spikeBias j)
      = Real.exp (2/25) + 9 * Real.exp (-(2/25)) := by
    unfold spikeBias
    exact sum_exp_spike (2/25)
  have hSpos : (0 : ℝ) < ∑ j, Real.exp (spikeBias j) := sumExp_pos spikeBias
  have hloss : scenarioLoss (fun _ _ => 0) (fun _ => 0) (fun _ _ => 0) spikeBias
      (List.replicate 64 0)
      = Real.log (∑ j, Real.exp (spikeBias j)) - 2/25 := by
    unfold scenarioLoss
    rw [hz]
    rw [criterionLoss_replicate spikeBias (List.replicate 64 0) (by simp)
      (logSoftmaxRow spikeBias 0)
      (fun l hl => by rw [List.eq_of_mem_replicate hl])]
    rw [logSoftmaxRow_eq_log_softmaxRow]
    unfold softmaxRow
    rw [Real.log_div (Real.exp_ne_zero _) (ne_of_gt hSpos), Real.log_exp]
    have hb0 : spikeBias 0 = 2/25 := rfl
    rw [hb0]
    ring
  have hlog : Real.log (∑ j, Real.exp (spikeBias j)) ≤ Real.log 10 := by
    refine Real.log_le_log hSpos ?_
    rw [hS]
    exact sum_exp_spike_le_ten
  intro habs
  have h1 := (abs_le.1 habs).1
  rw [hloss] at h1
  linarith

/-- C8 (amended): with an initialization that gives all ten classes equal
logits on the zero image — here the all-zero parameters — the batch of 64
zero images yields loss exactly ln 10, for every label assignment of the 64
examples, hence in particular within the 1e-3 tolerance. -/
theorem zero_init_two_layer_loss_eq_log_ten (labels : List (Fin 10))
    (hlen : labels.length = 64) :
    scenarioLoss (fun _ _ => 0) (fun _ => 0) (fun _ _ => 0) (fun _ => 0) labels
      = Real.log 10 := by
  have hz : twoLayerLogits (fun _ _ => 0) (fun _ => 0) (fun _ _ => 0)
      (fun _ => 0) (fun _ => 0) = fun _ => 0 := by
    funext i
    exact linearLayer_zero_weights (fun _ => 0) _ i
  have hrow : ∀ l : Fin 10, logSoftmaxRow (fun _ => 0) l = -(Real.log 10) := by
    intro l
    rw [logSoftmaxRow_eq_log_softmaxRow]
    unfold softmaxRow
    simp [Real.exp_zero, Real.log_inv]
  unfold scenarioLoss
  rw [hz, criterionLoss_replicate (fun _ => 0) labels hlen (-(Real.log 10))
    (fun l _ => hrow l), neg_neg]

/-- Witness for the amended C8 at a concrete label assignment. -/
theorem zero_init_two_layer_loss_eq_log_ten_witness :
    (List.replicate 64 (0 : Fin 10)).length = 64 ∧
      scenarioLoss (fun _ _ => 0) (fun _ => 0) (fun _ _ => 0) (fun _ => 0)
        (List.replicate 64 0) = Real.log 10 :=
  ⟨by simp, zero_init_two_layer_loss_eq_log_ten (List.replicate 64 0) (by simp)⟩

end Spec2Proof
